import Mathlib

/-!
Verification of the cryptenv secret manager (Rust sources under `src/`)
against its natural-language specification.

The Rust code is shallowly embedded:
* `HashMap<String, String>` becomes an association list `List (String × String)`
  with `alookup` as the lookup function and `hmInsert` as overwriting insertion
  (TOML/serde guarantees the maps start out with pairwise distinct keys);
* filesystem, keyring and working-directory reads (ambient state in Rust) are
  threaded in as explicit arguments;
* the external crates `aes_gcm` (the keyed AEAD cipher) is abstracted as a
  structure carrying its documented contract, while the `base64` crate's
  standard alphabet codec and UTF-8 encoding/validation (`String::from_utf8`)
  are implemented concretely.
-/

namespace Cryptenv

/-- Lookup in an association list modelling a `HashMap` keyed by `String`:
returns the value of the first pair whose key matches. -/
def alookup {α : Type} : List (String × α) → String → Option α
  | [], _ => none
  | kv :: t, k => if kv.1 = k then some kv.2 else alookup t k

/-- Insertion modelling `HashMap::insert` (overwrite semantics): replaces the
first pair with the given key, or appends the pair when the key is absent. -/
def hmInsert : List (String × String) → String → String → List (String × String)
  | [], k, v => [(k, v)]
  | kv :: t, k, v => if kv.1 = k then (k, v) :: t else kv :: hmInsert t k v

/-- `str::starts_with` on Rust strings: prefix match on the character sequence. -/
def strStarts (s p : String) : Bool :=
  p.data.isPrefixOf s.data

/-- `src/config.rs` `ProjectConfig`: a project's direct variable bindings plus
the list of profile names it references, in order. -/
structure ProjectConfig where
  profiles : List String
  vars : List (String × String)
deriving DecidableEq, Repr

/-- `src/config.rs` `ProjectValue`: the untagged two-shape project entry —
either a full `ProjectConfig` or a bare list of profile names. -/
inductive ProjectValue where
  | config (c : ProjectConfig)
  | profilesOnly (ps : List String)
deriving DecidableEq, Repr

/-- `src/config.rs` `Config`: configured root directories (raw strings), the
profile table, and the project table. -/
structure Config where
  dirs : List String
  profile : List (String × List (String × String))
  project : List (String × ProjectValue)
deriving DecidableEq, Repr

/-- Lookup in the profile table (`Config::get_profile`). -/
def Config.get_profile (c : Config) (name : String) : Option (List (String × String)) :=
  alookup c.profile name

/-- `Config::get_project_config`: plain lookup of a project entry by name,
normalising a bare profile list into a `ProjectConfig` with no direct vars. -/
def Config.get_project_config (c : Config) (name : String) : Option ProjectConfig :=
  match alookup c.project name with
  | some (.config pc) => some pc
  | some (.profilesOnly ps) => some ⟨ps, []⟩
  | none => none

/-- `Config::get_project_configs`: iterates the project table but keeps only
keys starting with the literal string `"project."`, stripping that prefix
(8 characters) from the reported project name. -/
def Config.get_project_configs (c : Config) : List (String × ProjectConfig) :=
  (c.project.filter (fun kv => strStarts kv.1 "project.")).map (fun kv =>
    (String.mk (kv.1.data.drop 8),
      match kv.2 with
      | .config pc => pc
      | .profilesOnly ps => ⟨ps, []⟩))

/-- `src/project.rs` `Project`: the resolved variable-name → secret-name map. -/
structure Project where
  vars : List (String × String)
deriving DecidableEq, Repr

/-- `Project::from_project_config` (src/project.rs:69-92): copy the project's
direct bindings, then for each referenced profile in order insert each of its
pairs only when the variable name is not already present. -/
def from_project_config (name : String) (c : Config) : Option Project :=
  match c.get_project_config name with
  | none => none
  | some pc =>
    let init := pc.vars.foldl (fun m kv => hmInsert m kv.1 kv.2) []
    let merged := pc.profiles.foldl (fun m pname =>
      match c.get_profile pname with
      | none => m
      | some profile =>
        profile.foldl (fun m2 kv =>
          if (alookup m2 kv.1).isSome then m2 else hmInsert m2 kv.1 kv.2) m) init
    some ⟨merged⟩

/-- First profile (in reference order) that binds the variable wins; unknown
profile names contribute nothing.  Reference function used to state the merge
precedence of `from_project_config`. -/
def profilesLookup (c : Config) : List String → String → Option String
  | [], _ => none
  | p :: rest, k =>
    match c.get_profile p with
    | none => profilesLookup c rest k
    | some profile => (alookup profile k).or (profilesLookup c rest k)

/-- `Project::get_project_dir` (src/project.rs:48-62), with the configured
roots and the current directory passed explicitly as component lists
(`Path::starts_with` / `Path::components` are component-wise).  For the first
root that is a component-wise prefix of `cwd` the component of `cwd` at index
`root.length` is returned; when `cwd` has no such component the `?` operator
makes the whole function return `none` without trying later roots. -/
def get_project_dir : List (List String) → List String → Option String
  | [], _ => none
  | dir :: rest, cwd =>
    if dir.isPrefixOf cwd then cwd.get? dir.length
    else get_project_dir rest cwd

/-- Split a character sequence at `/`, accumulating the current component. -/
def splitSlashAux : List Char → List Char → List String
  | [], acc => [String.mk acc.reverse]
  | c :: cs, acc =>
    if c = '/' then String.mk acc.reverse :: splitSlashAux cs []
    else splitSlashAux cs (c :: acc)

/-- Split an absolute path into its components, the way `Path::components`
views it (the leading empty component stands for the filesystem root). -/
def parsePath (s : String) : List String :=
  splitSlashAux s.data []

/-- `src/store.rs` `Store`: the persistent secret-name → ciphertext map. -/
structure Store where
  vars : List (String × String)
deriving DecidableEq, Repr

/-- `Store::get`: case-sensitive exact lookup of a ciphertext blob. -/
def Store.get (s : Store) (name : String) : Option String :=
  alookup s.vars name

/-- Outcome of `Store::read`: either a store, or a process abort
(the Rust code `expect`s on read/parse failures). -/
inductive ReadResult where
  | ok (s : Store)
  | panicked
deriving DecidableEq, Repr

/-- `Store::read` (src/store.rs:152-164), with the on-disk state passed
explicitly: `none` means the store path does not exist, `some none` means the
file exists but reading it fails, `some (some contents)` is a successful read.
The JSON deserializer (serde) is passed in as `parse`. -/
def Store.read (fileState : Option (Option String)) (parse : String → Option Store) :
    ReadResult :=
  match fileState with
  | none => .ok ⟨[]⟩
  | some none => .panicked
  | some (some contents) =>
    match parse contents with
    | some store => .ok store
    | none => .panicked

/-- A filesystem operation performed by `Store::save_to_disk`, with paths as
component lists. -/
inductive FsOp where
  | createDirAll (path : List String)
  | writeFile (path : List String) (contents : String)
  | rename (src dst : List String)
deriving DecidableEq, Repr

/-- The fixed store path `dirs::data_dir()/cryptenv/store.json`. -/
def storePath (dataDir : List String) : List String :=
  dataDir ++ ["cryptenv", "store.json"]

/-- `Store::save_to_disk` (src/store.rs:166-175) as the sequence of filesystem
operations it performs: create the parent directory, then write the serialized
map directly to the store path.  The serde serializer is passed in. -/
def save_to_disk (serialize : Store → String) (dataDir : List String) (s : Store) :
    List FsOp :=
  [FsOp.createDirAll (dataDir ++ ["cryptenv"]),
   FsOp.writeFile (storePath dataDir) (serialize s)]

/-- The durable-replace strategy the claim attributes to `save_to_disk`:
the final store path is never the direct target of a write; instead some
temporary path is written and then renamed onto the store path. -/
def claimDurableReplace (ops : List FsOp) (target : List String) : Prop :=
  (∀ c, FsOp.writeFile target c ∉ ops) ∧
    ∃ tmp c, tmp ≠ target ∧ FsOp.writeFile tmp c ∈ ops ∧ FsOp.rename tmp target ∈ ops

/-- Ambient state consulted by the key-manager functions in `src/store.rs`:
the OS keyring read result, the fallback key file state, and the success of
each side-effecting step of `store_key`. -/
structure KeyEnv where
  keyringSecret : Option (List Nat)
  keyFileExists : Bool
  keyFileContents : Option (List Nat)
  keyringStoreOk : Bool
  keyringReadBackOk : Bool
  createDirOk : Bool
  writeFileOk : Bool
  setPermsOk : Bool
deriving DecidableEq, Repr

/-- Outcome of a key-manager call: a key, a reported error, or a process
abort (`Key::clone_from_slice` aborts when the keyring secret is not exactly
32 bytes, and `get_or_create_key` `expect`s on a failed `store_key`). -/
inductive KeyResult where
  | ok (key : List Nat)
  | err (msg : String)
  | panicked
deriving DecidableEq, Repr

/-- `get_key` (src/store.rs:82-101): try the keyring first; on failure fall
back to the fixed key file, accepting it only when it holds exactly 32 bytes;
a file read error is propagated, anything else is "no encryption key found". -/
def get_key (env : KeyEnv) : KeyResult :=
  match env.keyringSecret with
  | some secret => if secret.length = 32 then .ok secret else .panicked
  | none =>
    if env.keyFileExists then
      match env.keyFileContents with
      | none => .err "failed to read key file"
      | some bytes =>
        if bytes.length = 32 then .ok bytes else .err "no encryption key found"
    else .err "no encryption key found"

/-- `store_key` (src/store.rs:104-135): try the keyring (set then verify by
reading back); on failure fall back to writing the key file with owner-only
permissions, propagating the first failing filesystem step. -/
def store_key (env : KeyEnv) : Except String Unit :=
  if env.keyringStoreOk ∧ env.keyringReadBackOk then .ok ()
  else if ¬ env.createDirOk then .error "failed to create key directory"
  else if ¬ env.writeFileOk then .error "failed to write key file"
  else if ¬ env.setPermsOk then .error "failed to set key file permissions"
  else .ok ()

/-- `get_or_create_key` (src/store.rs:138-147): return the acquired key if
`get_key` succeeds; otherwise generate a fresh random key (passed explicitly
as `fresh`), persist it via `store_key` (aborting on failure), and return it. -/
def get_or_create_key (env : KeyEnv) (fresh : List Nat) : KeyResult :=
  match get_key env with
  | .ok k => .ok k
  | .panicked => .panicked
  | .err _ =>
    match store_key env with
    | .ok _ => .ok fresh
    | .error _ => .panicked

/-- Standard base64 alphabet: the character for a sextet value. -/
def b64Char (n : Nat) : Char :=
  if n < 26 then Char.ofNat (65 + n)
  else if n < 52 then Char.ofNat (97 + (n - 26))
  else if n < 62 then Char.ofNat (48 + (n - 52))
  else if n = 62 then '+'
  else '/'

/-- Standard base64 alphabet: the sextet value of a character, `none` for a
character outside the alphabet (padding `=` included). -/
def b64Index (c : Char) : Option Nat :=
  if 'A' ≤ c ∧ c ≤ 'Z' then some (c.toNat - 65)
  else if 'a' ≤ c ∧ c ≤ 'z' then some (c.toNat - 97 + 26)
  else if '0' ≤ c ∧ c ≤ '9' then some (c.toNat - 48 + 52)
  else if c = '+' then some 62
  else if c = '/' then some 63
  else none

/-- RFC 4648 standard base64 encoding of a byte sequence (the `base64` crate's
`BASE64_STANDARD.encode`): three bytes become four alphabet characters, a
final one- or two-byte group is padded with `=`. -/
def b64EncodeChunks : List Nat → List Char
  | b0 :: b1 :: b2 :: rest =>
    b64Char (b0 / 4) :: b64Char (b0 % 4 * 16 + b1 / 16) ::
      b64Char (b1 % 16 * 4 + b2 / 64) :: b64Char (b2 % 64) :: b64EncodeChunks rest
  | [b0, b1] => [b64Char (b0 / 4), b64Char (b0 % 4 * 16 + b1 / 16), b64Char (b1 % 16 * 4), '=']
  | [b0] => [b64Char (b0 / 4), b64Char (b0 % 4 * 16), '=', '=']
  | [] => []

/-- RFC 4648 standard base64 decoding with strict validation (the `base64`
crate's `BASE64_STANDARD.decode`): the length must be a multiple of four,
characters must come from the alphabet, padding must be canonical (only at the
very end and with zero trailing bits). -/
def b64DecodeChunks : List Char → Option (List Nat)
  | [] => some []
  | c0 :: c1 :: c2 :: c3 :: rest =>
    match b64Index c0, b64Index c1 with
    | some s0, some s1 =>
      if c2 = '=' then
        if c3 = '=' ∧ rest = [] ∧ s1 % 16 = 0 then some [s0 * 4 + s1 / 16] else none
      else
        match b64Index c2 with
        | some s2 =>
          if c3 = '=' then
            if rest = [] ∧ s2 % 4 = 0 then
              some [s0 * 4 + s1 / 16, s1 % 16 * 16 + s2 / 4]
            else none
          else
            match b64Index c3 with
            | some s3 =>
              (b64DecodeChunks rest).map
                (fun bs => (s0 * 4 + s1 / 16) :: (s1 % 16 * 16 + s2 / 4) :: (s2 % 4 * 64 + s3) :: bs)
            | none => none
        | none => none
    | _, _ => none
  | _ => none

/-- Base64 encoding as a Rust `String`. -/
def b64encode (bs : List Nat) : String :=
  String.mk (b64EncodeChunks bs)

/-- Base64 decoding of a Rust `String` (`none` models `DecodeError`). -/
def b64decode (s : String) : Option (List Nat) :=
  b64DecodeChunks s.data

/-- UTF-8 encoding of one character (what `str::as_bytes` produces per char). -/
def utf8EncodeChar (c : Char) : List Nat :=
  let v := c.toNat
  if v < 0x80 then [v]
  else if v < 0x800 then [0xC0 + v / 0x40, 0x80 + v % 0x40]
  else if v < 0x10000 then
    [0xE0 + v / 0x1000, 0x80 + v / 0x40 % 0x40, 0x80 + v % 0x40]
  else
    [0xF0 + v / 0x40000, 0x80 + v / 0x1000 % 0x40, 0x80 + v / 0x40 % 0x40, 0x80 + v % 0x40]

/-- UTF-8 encoding of a character sequence. -/
def utf8EncodeList : List Char → List Nat
  | [] => []
  | c :: cs => utf8EncodeChar c ++ utf8EncodeList cs

/-- Core of the validating UTF-8 decoder (the check performed by
`String::from_utf8`), as a byte-at-a-time state machine.  The state is `none`
between characters and `some (need, v, lo)` inside a multi-byte sequence:
`need` continuation bytes are still expected, `v` is the partial code point
and `lo` the smallest value the finished code point may have (rejecting
overlong encodings).  Stray continuation bytes, the overlong leads `C0`/`C1`,
leads above `F4`, surrogates and values past `0x10FFFF` are all rejected. -/
def utf8Go : List Nat → Option (Nat × Nat × Nat) → Option (List Char)
  | [], none => some []
  | [], some _ => none
  | b :: rest, none =>
    if b < 0x80 then (utf8Go rest none).map (fun cs => Char.ofNat b :: cs)
    else if b < 0xC2 then none
    else if b < 0xE0 then utf8Go rest (some (1, b - 0xC0, 0x80))
    else if b < 0xF0 then utf8Go rest (some (2, b - 0xE0, 0x800))
    else if b < 0xF5 then utf8Go rest (some (3, b - 0xF0, 0x10000))
    else none
  | _ :: _, some (0, _, _) => none
  | b :: rest, some (1, v, lo) =>
    if 0x80 ≤ b ∧ b < 0xC0 then
      if lo ≤ v * 0x40 + (b - 0x80) ∧ v * 0x40 + (b - 0x80) < 0x110000
          ∧ ¬(0xD800 ≤ v * 0x40 + (b - 0x80) ∧ v * 0x40 + (b - 0x80) < 0xE000) then
        (utf8Go rest none).map (fun cs => Char.ofNat (v * 0x40 + (b - 0x80)) :: cs)
      else none
    else none
  | b :: rest, some (need + 2, v, lo) =>
    if 0x80 ≤ b ∧ b < 0xC0 then utf8Go rest (some (need + 1, v * 0x40 + (b - 0x80), lo))
    else none

/-- Validating UTF-8 decoder: `some` exactly on well-formed UTF-8. -/
def utf8Decode (l : List Nat) : Option (List Char) :=
  utf8Go l none

/-- `value.as_bytes()` on a Rust `String`. -/
def utf8enc (s : String) : List Nat :=
  utf8EncodeList s.data

/-- `String::from_utf8` (`none` models `FromUtf8Error`). -/
def utf8dec (bs : List Nat) : Option String :=
  (utf8Decode bs).map (fun cs => String.mk cs)

/-- The keyed AES-256-GCM cipher from the `aes_gcm` crate, abstracted with its
documented contract: opening what was sealed under the same nonce returns the
message, and sealed output is a byte sequence. -/
structure AeadCipher where
  sealBytes : List Nat → List Nat → List Nat
  openBytes : List Nat → List Nat → Option (List Nat)
  seal_open : ∀ nonce msg, (∀ b ∈ msg, b < 256) → openBytes nonce (sealBytes nonce msg) = some msg
  seal_lt : ∀ nonce msg, (∀ b ∈ msg, b < 256) → ∀ b ∈ sealBytes nonce msg, b < 256

/-- `src/store.rs` `DecryptError`, one constructor per classified failure. -/
inductive DecryptError where
  | Keyring
  | InvalidBase64
  | InvalidDataLength (len : Nat)
  | Crypto
  | Utf8
deriving DecidableEq, Repr

/-- `decrypt` (src/store.rs:243-263): acquire the key (a missing key is the
`Keyring` failure), base64-decode the blob, require at least the 12 nonce
bytes, open the AEAD ciphertext with the leading 12 bytes as nonce, and
require the plaintext to be valid UTF-8 — each failure its own error kind. -/
def decrypt (keyResult : Option AeadCipher) (value : String) : Except DecryptError String :=
  match keyResult with
  | none => .error .Keyring
  | some cipher =>
    match b64decode value with
    | none => .error .InvalidBase64
    | some data =>
      if data.length < 12 then .error (.InvalidDataLength data.length)
      else
        match cipher.openBytes (data.take 12) (data.drop 12) with
        | none => .error .Crypto
        | some decrypted =>
          match utf8dec decrypted with
          | none => .error .Utf8
          | some s => .ok s

/-- `encrypt` (src/store.rs:265-278): seal the UTF-8 bytes of the value under
a fresh 96-bit nonce (passed explicitly) and base64-encode nonce ‖ ciphertext. -/
def encrypt (cipher : AeadCipher) (nonce : List Nat) (value : String) : String :=
  b64encode (nonce ++ cipher.sealBytes nonce (utf8enc value))

/-- A concrete cipher satisfying the AEAD contract, used to evaluate the
theorems on closed inputs: sealing prepends a tag byte, opening requires it. -/
def tagCipher : AeadCipher where
  sealBytes := fun _ msg => 7 :: msg
  openBytes := fun _ c =>
    match c with
    | 7 :: rest => some rest
    | _ => none
  seal_open := fun _ _ _ => rfl
  seal_lt := fun _ msg h b hb => by
    cases hb with
    | head => omega
    | tail _ hb => exact h b hb

/-- One missing-secret finding of the `Check` subcommand: the secret name, the
project reporting it, and the originating profile when it came from one. -/
structure Finding where
  var : String
  project : String
  profile : Option String
deriving DecidableEq, Repr

/-- The findings printed by `Commands::Check` (src/main.rs:94-140): for every
project returned by `Config::get_project_configs`, every direct secret name
and every secret name of each referenced profile that is absent from the
store; an unknown referenced profile only prints a warning. -/
def checkFindings (c : Config) (store : Store) : List Finding :=
  (c.get_project_configs).flatMap (fun nc =>
    ((nc.2.vars.map Prod.snd).filter (fun v => (store.get v).isNone)).map
        (fun v => ⟨v, nc.1, none⟩)
      ++ nc.2.profiles.flatMap (fun pname =>
        match c.get_profile pname with
        | some profile =>
          ((profile.map Prod.snd).filter (fun v => (store.get v).isNone)).map
            (fun v => ⟨v, nc.1, some pname⟩)
        | none => []))

/-- The variable-name set collected by `Config::unset` (src/config.rs:60-113):
keys of the direct bindings and of the referenced profiles of every project
whose table key starts with `"project."`. -/
def allUnsetKeys (c : Config) : List String :=
  (c.project.filter (fun kv => strStarts kv.1 "project.")).flatMap (fun kv =>
    match kv.2 with
    | .config pc =>
      pc.vars.map Prod.fst
        ++ pc.profiles.flatMap (fun p => ((c.get_profile p).map (·.map Prod.fst)).getD [])
    | .profilesOnly ps =>
      ps.flatMap (fun p => ((c.get_profile p).map (·.map Prod.fst)).getD []))

/-- The unset statements emitted by `Config::unset`: one per collected key
that is currently set in the process environment (passed explicitly). -/
def unsetStatements (c : Config) (env : List String) : List String :=
  ((allUnsetKeys c).eraseDups.filter (fun k => env.contains k)).map
    (fun k => "unset " ++ k)

/-- Modelled from the spec: the set of variable names "known anywhere in
ConfigModel — declared in any project's direct bindings or in any profile
referenced by a project".  This follows the claim's words (no filtering of
project keys) and is compared against what the code actually collects. -/
def claimKnownVars (c : Config) : List String :=
  c.project.flatMap (fun kv =>
    match kv.2 with
    | .config pc =>
      pc.vars.map Prod.fst
        ++ pc.profiles.flatMap (fun p => ((c.get_profile p).map (·.map Prod.fst)).getD [])
    | .profilesOnly ps =>
      ps.flatMap (fun p => ((c.get_profile p).map (·.map Prod.fst)).getD []))

/-- The configuration of the C1 precedence example: project `P` with direct
binding `A → X` and profiles `p1 = {A → Y, B → Z}`, `p2 = {B → W, C → V}`. -/
def exampleC1Config : Config where
  dirs := []
  profile := [("p1", [("A", "Y"), ("B", "Z")]), ("p2", [("B", "W"), ("C", "V")])]
  project := [("P", .config ⟨["p1", "p2"], [("A", "X")]⟩)]

/-- A configuration in the shape the README-style TOML produces: project table
keys are the plain project names.  Project `svc` binds `DB_URL` directly and
project `api` references profile `ext` which declares `OTHER`. -/
def exampleC5Config : Config where
  dirs := ["/w"]
  profile := [("ext", [("OTHER", "S")])]
  project := [("svc", .config ⟨[], [("DB_URL", "db")]⟩), ("api", .profilesOnly ["ext"])]

/-- A configuration with a single ordinary project `svc` whose only variable
refers to the secret name `MISSING`. -/
def exampleC6Config : Config where
  dirs := ["/w"]
  profile := []
  project := [("svc", .config ⟨[], [("A", "MISSING")]⟩)]

/-! ### Helper lemmas about the association-list map model -/

theorem alookup_append {α : Type} (l₁ l₂ : List (String × α)) (k : String) :
    alookup (l₁ ++ l₂) k = (alookup l₁ k).or (alookup l₂ k) := by
  induction l₁ with
  | nil => simp [alookup]
  | cons kv t ih =>
    by_cases h : kv.1 = k <;> simp [alookup, h, ih]

theorem alookup_hmInsert (m : List (String × String)) (k v k' : String) :
    alookup (hmInsert m k v) k' = if k = k' then some v else alookup m k' := by
  induction m with
  | nil => simp [alookup, hmInsert]
  | cons kv t ih =>
    simp only [hmInsert]
    by_cases h1 : kv.1 = k
    · rw [if_pos h1]
      by_cases h2 : k = k'
      · simp [alookup, h2]
      · have hk : ¬ kv.1 = k' := fun hh => h2 (h1 ▸ hh)
        simp [alookup, h2, hk]
    · rw [if_neg h1]
      by_cases h2 : kv.1 = k'
      · have h3 : ¬ k = k' := fun hh => h1 (h2.trans hh.symm)
        simp [alookup, h2, h3]
      · simp [alookup, h2, ih]

theorem alookup_eq_none_of_not_mem {α : Type} (l : List (String × α)) (k : String)
    (h : k ∉ l.map Prod.fst) : alookup l k = none := by
  induction l with
  | nil => rfl
  | cons kv t ih =>
    simp only [List.map_cons, List.mem_cons] at h
    push_neg at h
    have hne : ¬ kv.1 = k := fun he => h.1 he.symm
    simp [alookup, hne, ih h.2]

theorem alookup_reverse_of_nodup {α : Type} (l : List (String × α))
    (h : (l.map Prod.fst).Nodup) (k : String) :
    alookup l.reverse k = alookup l k := by
  induction l with
  | nil => rfl
  | cons kv t ih =>
    simp only [List.map_cons, List.nodup_cons] at h
    rw [List.reverse_cons, alookup_append, ih h.2]
    by_cases he : kv.1 = k
    · rw [alookup_eq_none_of_not_mem t k (he ▸ h.1)]
      simp [alookup, he]
    · simp [alookup, he]

theorem foldl_hmInsert_alookup (l : List (String × String))
    (m : List (String × String)) (k : String) :
    alookup (l.foldl (fun m kv => hmInsert m kv.1 kv.2) m) k
      = (alookup l.reverse k).or (alookup m k) := by
  induction l generalizing m with
  | nil => simp [alookup]
  | cons kv t ih =>
    rw [List.foldl_cons, ih, List.reverse_cons, alookup_append, Option.or_assoc,
      alookup_hmInsert]
    by_cases he : kv.1 = k <;> simp [alookup, he]

theorem profileFold_alookup (profile : List (String × String))
    (m : List (String × String)) (k : String) :
    alookup (profile.foldl
        (fun m2 kv => if (alookup m2 kv.1).isSome then m2 else hmInsert m2 kv.1 kv.2) m) k
      = (alookup m k).or (alookup profile k) := by
  induction profile generalizing m with
  | nil => simp [alookup]
  | cons kv t ih =>
    rw [List.foldl_cons]
    by_cases h : (alookup m kv.1).isSome
    · rw [if_pos h, ih]
      by_cases he : kv.1 = k
      · subst he
        obtain ⟨w, hw⟩ := Option.isSome_iff_exists.mp h
        simp [alookup, hw]
      · simp [alookup, he]
    · rw [if_neg h, ih, alookup_hmInsert]
      rw [Option.not_isSome_iff_eq_none] at h
      by_cases he : kv.1 = k
      · subst he
        simp [alookup, h]
      · simp [alookup, he]

theorem profilesFold_alookup (c : Config) (ps : List String)
    (m : List (String × String)) (k : String) :
    alookup (ps.foldl (fun m pname =>
        match c.get_profile pname with
        | none => m
        | some profile =>
          profile.foldl
            (fun m2 kv => if (alookup m2 kv.1).isSome then m2 else hmInsert m2 kv.1 kv.2) m) m) k
      = (alookup m k).or (profilesLookup c ps k) := by
  induction ps generalizing m with
  | nil => simp [profilesLookup]
  | cons p rest ih =>
    rw [List.foldl_cons]
    cases hp : c.get_profile p with
    | none => simp only [profilesLookup, hp, ih]
    | some profile =>
      simp only [profilesLookup, hp, ih, profileFold_alookup, Option.or_assoc]

theorem from_project_config_eq (c : Config) (name : String) (pc : ProjectConfig)
    (hpc : c.get_project_config name = some pc) :
    from_project_config name c
      = some ⟨pc.profiles.foldl (fun m pname =>
          match c.get_profile pname with
          | none => m
          | some profile =>
            profile.foldl
              (fun m2 kv => if (alookup m2 kv.1).isSome then m2 else hmInsert m2 kv.1 kv.2) m)
          (pc.vars.foldl (fun m kv => hmInsert m kv.1 kv.2) [])⟩ := by
  unfold from_project_config
  rw [hpc]

/-- C1: the resolved variable mapping starts from the project's direct
bindings and adds a referenced profile's pair (profiles in listed order) only
when the variable is not already present, so direct bindings win over every
profile and earlier-listed profiles win over later ones; on the example
project `P` with direct `{A ↦ X}` and profiles `[p1 = {A ↦ Y, B ↦ Z},
p2 = {B ↦ W, C ↦ V}]` the result is exactly `{A ↦ X, B ↦ Z, C ↦ V}`. -/
theorem C1_resolution_precedence :
    (∀ (c : Config) (name : String) (pc : ProjectConfig) (proj : Project) (k : String),
        c.get_project_config name = some pc →
        from_project_config name c = some proj →
        (pc.vars.map Prod.fst).Nodup →
        alookup proj.vars k = (alookup pc.vars k).or (profilesLookup c pc.profiles k))
    ∧ from_project_config "P" exampleC1Config
        = some ⟨[("A", "X"), ("B", "Z"), ("C", "V")]⟩ := by
  constructor
  · intro c name pc proj k hpc hproj hnodup
    rw [from_project_config_eq c name pc hpc] at hproj
    obtain rfl := Option.some_inj.mp hproj
    show alookup (pc.profiles.foldl _ _) k = _
    rw [profilesFold_alookup, foldl_hmInsert_alookup,
      alookup_reverse_of_nodup pc.vars hnodup]
    simp [alookup]
  · rfl

/-- Witness for C1: the general precedence equation instantiated on the
example configuration at variable `C` (bound only by profile `p2`). -/
theorem C1_resolution_precedence_witness :
    alookup [("A", "X"), ("B", "Z"), ("C", "V")] "C"
      = (alookup [("A", "X")] "C").or (profilesLookup exampleC1Config ["p1", "p2"] "C") :=
  C1_resolution_precedence.1 exampleC1Config "P" ⟨["p1", "p2"], [("A", "X")]⟩
    ⟨[("A", "X"), ("B", "Z"), ("C", "V")]⟩ "C" rfl C1_resolution_precedence.2 (by decide)

/-- C2: `get_project_dir` walks the configured roots in declared order,
matches on whole path components, returns the component of `cwd` immediately
below the first matching root, yields no project when `cwd` equals the root,
and yields `none` ("not in a project") when no root matches. -/
theorem C2_project_dir_resolution :
    (∀ (dirs : List (List String)) (cwd : List String),
        get_project_dir dirs cwd
          = (dirs.find? (fun d => d.isPrefixOf cwd)).bind (fun d => cwd.get? d.length))
    ∧ get_project_dir [parsePath "/home/foo"] (parsePath "/home/foobar/app") = none
    ∧ get_project_dir [parsePath "/home/foo"] (parsePath "/home/foo/app/sub") = some "app"
    ∧ get_project_dir [parsePath "/home/foo"] (parsePath "/home/foo") = none
    ∧ get_project_dir [parsePath "/usr/lib"] (parsePath "/home/foo/app") = none := by
  refine ⟨?_, by decide, by decide, by decide, by decide⟩
  intro dirs cwd
  induction dirs with
  | nil => rfl
  | cons d rest ih =>
    cases h : d.isPrefixOf cwd <;> simp [get_project_dir, List.find?_cons, h, ih]

/-- C10: when the current directory is exactly the first root it starts with,
resolution returns `none` at once (the `?` operator) without examining later
roots, even when a later root would have produced a project name. -/
theorem C10_exact_root_shadows_later_roots :
    (∀ (pre post : List (List String)) (cwd : List String),
        (∀ d ∈ pre, d.isPrefixOf cwd = false) →
        get_project_dir (pre ++ cwd :: post) cwd = none)
    ∧ get_project_dir [["w", "p", "s"], ["w"]] ["w", "p", "s"] = none
    ∧ get_project_dir [["w"]] ["w", "p", "s"] = some "p" := by
  refine ⟨?_, by decide, by decide⟩
  intro pre post cwd hpre
  induction pre with
  | nil =>
    have hself : cwd.isPrefixOf cwd = true := by
      simp [List.isPrefixOf_iff_prefix]
    simp [get_project_dir, hself, List.get?_eq_none.mpr (le_refl cwd.length)]
  | cons d rest ih =>
    have hd := hpre d (by simp)
    simp only [List.cons_append, get_project_dir, hd, Bool.false_eq_true, if_false]
    exact ih (fun d' hd' => hpre d' (List.mem_cons_of_mem d hd'))

/-- Witness for C10: a two-root configuration where the first root does not
match and the second equals `cwd` exactly. -/
theorem C10_exact_root_shadows_later_roots_witness :
    get_project_dir [["a", "b"], ["w"]] ["w"] = none :=
  C10_exact_root_shadows_later_roots.1 [["a", "b"]] [] ["w"] (by decide)

/-- C5 (evaluating the code at the failing input): in a configuration whose
project-table keys are the plain project names — the shape
`Config::get_project_config` resolves — `Config::unset` collects no keys at
all (its `starts_with("project.")` filter matches nothing), so the load
operation emits no unset statement even though `OTHER` is known in the
config (profile `ext` referenced by project `api`), absent from the resolved
current project `svc`, and currently set in the environment. -/
theorem C5_unset_statements_missing :
    unsetStatements exampleC5Config ["OTHER"] = []
    ∧ allUnsetKeys exampleC5Config = []
    ∧ "OTHER" ∈ claimKnownVars exampleC5Config
    ∧ (from_project_config "svc" exampleC5Config).map (fun pr => alookup pr.vars "OTHER")
        = some none := by
  refine ⟨rfl, rfl, ?_, rfl⟩
  decide

/-- C6 (evaluating the code at the failing input): `Commands::Check` iterates
`Config::get_project_configs`, which keeps only project-table keys starting
with `"project."`; the ordinary project `svc` — resolvable via
`get_project_config` and referencing the absent secret `MISSING` — is
skipped, so the check produces zero findings instead of exactly one.  Had the
key been spelled `"project.svc"`, the same scan would have produced the
expected finding. -/
theorem C6_check_scans_nothing :
    Config.get_project_configs exampleC6Config = []
    ∧ checkFindings exampleC6Config ⟨[]⟩ = []
    ∧ from_project_config "svc" exampleC6Config = some ⟨[("A", "MISSING")]⟩
    ∧ Store.get ⟨[]⟩ "MISSING" = none
    ∧ checkFindings ⟨["/w"], [], [("project.svc", .config ⟨[], [("A", "MISSING")]⟩)]⟩ ⟨[]⟩
        = [⟨"MISSING", "svc", none⟩] := by
  refine ⟨?_, ?_, rfl, rfl, ?_⟩ <;> decide

/-- Counterexample to C7: on a concrete store, the operation sequence of
`save_to_disk` is not a durable-replace strategy — it writes the final store
path directly. -/
theorem C7_counterexample :
    ¬ claimDurableReplace
        (save_to_disk (fun _ => "serialized") ["data"] ⟨[("A", "blob")]⟩)
        (storePath ["data"]) := by
  intro h
  exact h.1 "serialized" (by simp [save_to_disk])

/-- C7 amended: `save_to_disk` serializes the whole map, creates the parent
directory, and then overwrites the store file in place with one direct write;
no temporary file and no rename is involved. -/
theorem C7_direct_write (serialize : Store → String) (dataDir : List String) (s : Store) :
    save_to_disk serialize dataDir s
      = [FsOp.createDirAll (dataDir ++ ["cryptenv"]),
         FsOp.writeFile (storePath dataDir) (serialize s)]
    ∧ ∀ src dst, FsOp.rename src dst ∉ save_to_disk serialize dataDir s := by
  refine ⟨rfl, ?_⟩
  intro src dst h
  simp [save_to_disk] at h

/-- C8: key acquisition probes the OS keyring first (the key file is not even
consulted when the keyring read succeeds), accepts the fallback file only when
it holds exactly 32 bytes, reports a key-unavailable error only when the
keyring read fails and the file is missing, unreadable or not 32 bytes long,
and every key it returns comes verbatim from the keyring, the file, or — in
`get_or_create_key` — the freshly generated random key. -/
theorem C8_key_acquisition :
    (∀ (env : KeyEnv) (s : List Nat), env.keyringSecret = some s →
        get_key env = (if s.length = 32 then .ok s else .panicked))
    ∧ (∀ (env : KeyEnv) (k : List Nat), get_key env = .ok k →
        (env.keyringSecret = some k ∧ k.length = 32)
        ∨ (env.keyringSecret = none ∧ env.keyFileExists = true
            ∧ env.keyFileContents = some k ∧ k.length = 32))
    ∧ (∀ (env : KeyEnv) (msg : String), get_key env = .err msg →
        env.keyringSecret = none
        ∧ (env.keyFileExists = false ∨ env.keyFileContents = none
            ∨ ∃ bytes, env.keyFileContents = some bytes ∧ bytes.length ≠ 32))
    ∧ (∀ (env : KeyEnv) (fresh k : List Nat), get_or_create_key env fresh = .ok k →
        get_key env = .ok k ∨ k = fresh) := by
  refine ⟨?_, ?_, ?_, ?_⟩
  · intro env s h
    simp [get_key, h]
  · intro env k h
    unfold get_key at h
    split at h
    · rename_i s hks
      split at h
      · rename_i hl
        cases h
        exact Or.inl ⟨hks, hl⟩
      · cases h
    · rename_i hks
      split at h
      · rename_i hf
        split at h
        · cases h
        · rename_i bytes hc
          split at h
          · rename_i hl
            cases h
            exact Or.inr ⟨hks, hf, hc, hl⟩
          · cases h
      · cases h
  · intro env msg h
    unfold get_key at h
    split at h
    · split at h <;> cases h
    · rename_i hks
      refine ⟨hks, ?_⟩
      split at h
      · rename_i hf
        split at h
        · rename_i hc
          exact Or.inr (Or.inl hc)
        · rename_i bytes hc
          split at h
          · cases h
          · rename_i hl
            exact Or.inr (Or.inr ⟨bytes, hc, hl⟩)
      · rename_i hf
        refine Or.inl ?_
        revert hf
        cases env.keyFileExists <;> simp
  · intro env fresh k h
    unfold get_or_create_key at h
    split at h
    · rename_i k' hg
      cases h
      exact Or.inl hg
    · cases h
    · split at h
      · cases h
        exact Or.inr rfl
      · cases h

/-- Witness for C8: the general facts instantiated on concrete environments —
a keyring holding a 32-byte key wins, and when both the keyring and the file
are empty but writable, `get_or_create_key` hands back the fresh key. -/
theorem C8_key_acquisition_witness :
    get_key ⟨some (List.replicate 32 0), true, some [1], true, true, true, true, true⟩
        = .ok (List.replicate 32 0)
    ∧ (get_key ⟨none, false, none, false, false, true, true, true⟩
          = .ok (List.replicate 32 9)
        ∨ List.replicate 32 9 = List.replicate 32 9) := by
  constructor
  · have h := C8_key_acquisition.1
      ⟨some (List.replicate 32 0), true, some [1], true, true, true, true, true⟩
      (List.replicate 32 0) rfl
    simpa using h
  · exact C8_key_acquisition.2.2.2
      ⟨none, false, none, false, false, true, true, true⟩
      (List.replicate 32 9) (List.replicate 32 9) rfl

/-- C9: reading the store when the store file does not exist yields the empty
store — a store whose mapping has no entries — not an error. -/
theorem C9_read_missing_store (parse : String → Option Store) :
    Store.read none parse = .ok ⟨[]⟩ ∧ ∀ name, Store.get ⟨[]⟩ name = none :=
  ⟨rfl, fun _ => rfl⟩

/-! ### Base64 and UTF-8 roundtrip lemmas -/

theorem b64Index_b64Char : ∀ n, n < 64 → b64Index (b64Char n) = some n := by decide

theorem b64Char_ne_pad : ∀ n, n < 64 → b64Char n ≠ '=' := by decide

theorem b64_chunks_roundtrip (bs : List Nat) (h : ∀ b ∈ bs, b < 256) :
    b64DecodeChunks (b64EncodeChunks bs) = some bs := by
  induction bs using b64EncodeChunks.induct with
  | case1 b0 b1 b2 rest ih =>
    have hb0 : b0 < 256 := h b0 (by simp)
    have hb1 : b1 < 256 := h b1 (by simp)
    have hb2 : b2 < 256 := h b2 (by simp)
    have i0 := b64Index_b64Char (b0 / 4) (by omega)
    have i1 := b64Index_b64Char (b0 % 4 * 16 + b1 / 16) (by omega)
    have i2 := b64Index_b64Char (b1 % 16 * 4 + b2 / 64) (by omega)
    have i3 := b64Index_b64Char (b2 % 64) (by omega)
    have n2 := b64Char_ne_pad (b1 % 16 * 4 + b2 / 64) (by omega)
    have n3 := b64Char_ne_pad (b2 % 64) (by omega)
    have ihh := ih (fun b hb => h b (by simp [hb]))
    simp only [b64EncodeChunks, b64DecodeChunks, i0, i1, i2, i3, n2, n3, if_neg, ihh,
      Option.map_some]
    refine congrArg some ?_
    have e0 : b0 / 4 * 4 + (b0 % 4 * 16 + b1 / 16) / 16 = b0 := by omega
    have e1 : (b0 % 4 * 16 + b1 / 16) % 16 * 16 + (b1 % 16 * 4 + b2 / 64) / 4 = b1 := by
      omega
    have e2 : (b1 % 16 * 4 + b2 / 64) % 4 * 64 + b2 % 64 = b2 := by omega
    rw [e0, e1, e2]
  | case2 b0 b1 =>
    have hb0 : b0 < 256 := h b0 (by simp)
    have hb1 : b1 < 256 := h b1 (by simp)
    have i0 := b64Index_b64Char (b0 / 4) (by omega)
    have i1 := b64Index_b64Char (b0 % 4 * 16 + b1 / 16) (by omega)
    have i2 := b64Index_b64Char (b1 % 16 * 4) (by omega)
    have n2 := b64Char_ne_pad (b1 % 16 * 4) (by omega)
    simp only [b64EncodeChunks, b64DecodeChunks, i0, i1, i2, n2, if_neg]
    have hmod : b1 % 16 * 4 % 4 = 0 := by omega
    simp only [hmod, and_self, if_pos, true_and, if_true]
    refine congrArg some ?_
    have e0 : b0 / 4 * 4 + (b0 % 4 * 16 + b1 / 16) / 16 = b0 := by omega
    have e1 : (b0 % 4 * 16 + b1 / 16) % 16 * 16 + b1 % 16 * 4 / 4 = b1 := by omega
    rw [e0, e1]
  | case3 b0 =>
    have hb0 : b0 < 256 := h b0 (by simp)
    have i0 := b64Index_b64Char (b0 / 4) (by omega)
    have i1 := b64Index_b64Char (b0 % 4 * 16) (by omega)
    simp only [b64EncodeChunks, b64DecodeChunks, i0, i1]
    have hmod : b0 % 4 * 16 % 16 = 0 := by omega
    simp only [hmod, if_pos, and_self, true_and, if_true]
    refine congrArg some ?_
    have e0 : b0 / 4 * 4 + b0 % 4 * 16 / 16 = b0 := by omega
    rw [e0]
  | case4 => rfl

theorem b64_roundtrip (bs : List Nat) (h : ∀ b ∈ bs, b < 256) :
    b64decode (b64encode bs) = some bs :=
  b64_chunks_roundtrip bs h

theorem utf8EncodeChar_lt (c : Char) : ∀ b ∈ utf8EncodeChar c, b < 256 := by
  have hv : Nat.isValidChar c.toNat := c.valid
  have hlt : c.toNat < 0x110000 := by
    rcases hv with h | ⟨h1, h2⟩ <;> omega
  intro b hb
  simp only [utf8EncodeChar] at hb
  split at hb
  · simp at hb; omega
  · split at hb
    · simp at hb
      rcases hb with rfl | rfl <;> omega
    · split at hb
      · simp at hb
        rcases hb with rfl | rfl | rfl <;> omega
      · simp at hb
        rcases hb with rfl | rfl | rfl | rfl <;> omega

theorem utf8EncodeList_lt (cs : List Char) : ∀ b ∈ utf8EncodeList cs, b < 256 := by
  induction cs with
  | nil => simp [utf8EncodeList]
  | cons c t ih =>
    intro b hb
    rcases List.mem_append.mp hb with h | h
    · exact utf8EncodeChar_lt c b h
    · exact ih b h

theorem utf8Go_ascii (b : Nat) (rest : List Nat) (h : b < 0x80) :
    utf8Go (b :: rest) none = (utf8Go rest none).map (fun cs => Char.ofNat b :: cs) := by
  simp [utf8Go, h]

theorem utf8Go_start2 (b : Nat) (rest : List Nat) (h1 : 0xC2 ≤ b) (h2 : b < 0xE0) :
    utf8Go (b :: rest) none = utf8Go rest (some (1, b - 0xC0, 0x80)) := by
  simp only [utf8Go]
  rw [if_neg (by omega : ¬ b < 0x80), if_neg (by omega : ¬ b < 0xC2), if_pos h2]

theorem utf8Go_start3 (b : Nat) (rest : List Nat) (h1 : 0xE0 ≤ b) (h2 : b < 0xF0) :
    utf8Go (b :: rest) none = utf8Go rest (some (2, b - 0xE0, 0x800)) := by
  simp only [utf8Go]
  rw [if_neg (by omega : ¬ b < 0x80), if_neg (by omega : ¬ b < 0xC2),
    if_neg (by omega : ¬ b < 0xE0), if_pos h2]

theorem utf8Go_start4 (b : Nat) (rest : List Nat) (h1 : 0xF0 ≤ b) (h2 : b < 0xF5) :
    utf8Go (b :: rest) none = utf8Go rest (some (3, b - 0xF0, 0x10000)) := by
  simp only [utf8Go]
  rw [if_neg (by omega : ¬ b < 0x80), if_neg (by omega : ¬ b < 0xC2),
    if_neg (by omega : ¬ b < 0xE0), if_neg (by omega : ¬ b < 0xF0), if_pos h2]

theorem utf8Go_cont3 (b v lo : Nat) (rest : List Nat) (h1 : 0x80 ≤ b) (h2 : b < 0xC0) :
    utf8Go (b :: rest) (some (3, v, lo))
      = utf8Go rest (some (2, v * 0x40 + (b - 0x80), lo)) := by
  simp [utf8Go, h1, h2]

theorem utf8Go_cont2 (b v lo : Nat) (rest : List Nat) (h1 : 0x80 ≤ b) (h2 : b < 0xC0) :
    utf8Go (b :: rest) (some (2, v, lo))
      = utf8Go rest (some (1, v * 0x40 + (b - 0x80), lo)) := by
  simp [utf8Go, h1, h2]

theorem utf8Go_fin (b v lo : Nat) (rest : List Nat) (h1 : 0x80 ≤ b) (h2 : b < 0xC0)
    (h3 : lo ≤ v * 0x40 + (b - 0x80)) (h4 : v * 0x40 + (b - 0x80) < 0x110000)
    (h5 : ¬(0xD800 ≤ v * 0x40 + (b - 0x80) ∧ v * 0x40 + (b - 0x80) < 0xE000)) :
    utf8Go (b :: rest) (some (1, v, lo))
      = (utf8Go rest none).map (fun cs => Char.ofNat (v * 0x40 + (b - 0x80)) :: cs) := by
  simp [utf8Go, h1, h2, h3, h4, h5]

theorem utf8Go_encodeChar (c : Char) (bs : List Nat) :
    utf8Go (utf8EncodeChar c ++ bs) none = (utf8Go bs none).map (fun cs => c :: cs) := by
  have hv : Nat.isValidChar c.toNat := c.valid
  have hofn : Char.ofNat c.toNat = c := Char.ofNat_toNat c
  have hlt : c.toNat < 0x110000 := by
    rcases hv with h | ⟨h1, h2⟩ <;> omega
  have hns : c.toNat < 0xD800 ∨ 0xDFFF < c.toNat := by
    rcases hv with h | ⟨h1, h2⟩
    · exact Or.inl h
    · exact Or.inr h1
  rcases Nat.lt_or_ge c.toNat 0x80 with h1 | h1
  · simp only [utf8EncodeChar, if_pos h1, List.cons_append, List.nil_append]
    rw [utf8Go_ascii _ _ h1, hofn]
  · rcases Nat.lt_or_ge c.toNat 0x800 with h2 | h2
    · simp only [utf8EncodeChar, if_neg (by omega : ¬ c.toNat < 0x80), if_pos h2,
        List.cons_append, List.nil_append]
      rw [utf8Go_start2 _ _ (by omega) (by omega),
        (by omega : 0xC0 + c.toNat / 0x40 - 0xC0 = c.toNat / 0x40),
        utf8Go_fin _ _ _ _ (by omega) (by omega) (by omega) (by omega) (by omega),
        (by omega : c.toNat / 0x40 * 0x40 + (0x80 + c.toNat % 0x40 - 0x80) = c.toNat), hofn]
    · rcases Nat.lt_or_ge c.toNat 0x10000 with h3 | h3
      · simp only [utf8EncodeChar, if_neg (by omega : ¬ c.toNat < 0x80),
          if_neg (by omega : ¬ c.toNat < 0x800), if_pos h3, List.cons_append, List.nil_append]
        rw [utf8Go_start3 _ _ (by omega) (by omega),
          (by omega : 0xE0 + c.toNat / 0x1000 - 0xE0 = c.toNat / 0x1000),
          utf8Go_cont2 _ _ _ _ (by omega) (by omega),
          (by omega :
            c.toNat / 0x1000 * 0x40 + (0x80 + c.toNat / 0x40 % 0x40 - 0x80) = c.toNat / 0x40),
          utf8Go_fin _ _ _ _ (by omega) (by omega) (by omega) (by omega) (by omega),
          (by omega : c.toNat / 0x40 * 0x40 + (0x80 + c.toNat % 0x40 - 0x80) = c.toNat), hofn]
      · simp only [utf8EncodeChar, if_neg (by omega : ¬ c.toNat < 0x80),
          if_neg (by omega : ¬ c.toNat < 0x800), if_neg (by omega : ¬ c.toNat < 0x10000),
          List.cons_append, List.nil_append]
        rw [utf8Go_start4 _ _ (by omega) (by omega),
          (by omega : 0xF0 + c.toNat / 0x40000 - 0xF0 = c.toNat / 0x40000),
          utf8Go_cont3 _ _ _ _ (by omega) (by omega),
          (by omega :
            c.toNat / 0x40000 * 0x40 + (0x80 + c.toNat / 0x1000 % 0x40 - 0x80)
              = c.toNat / 0x1000),
          utf8Go_cont2 _ _ _ _ (by omega) (by omega),
          (by omega :
            c.toNat / 0x1000 * 0x40 + (0x80 + c.toNat / 0x40 % 0x40 - 0x80) = c.toNat / 0x40),
          utf8Go_fin _ _ _ _ (by omega) (by omega) (by omega) (by omega) (by omega),
          (by omega : c.toNat / 0x40 * 0x40 + (0x80 + c.toNat % 0x40 - 0x80) = c.toNat), hofn]

theorem utf8Go_encodeList (cs : List Char) (bs : List Nat) :
    utf8Go (utf8EncodeList cs ++ bs) none = (utf8Go bs none).map (fun l => cs ++ l) := by
  induction cs with
  | nil =>
    simp [utf8EncodeList]
  | cons c t ih =>
    simp only [utf8EncodeList, List.append_assoc]
    rw [utf8Go_encodeChar, ih, Option.map_map]
    rfl

theorem utf8_roundtrip (s : String) : utf8dec (utf8enc s) = some s := by
  unfold utf8dec utf8enc utf8Decode
  have h := utf8Go_encodeList s.data []
  rw [List.append_nil] at h
  rw [h, show utf8Go [] none = some [] from rfl]
  show some (String.mk (s.data ++ [])) = some s
  rw [List.append_nil]
/-- C3: decrypting what encrypt produced — under the same key (the same keyed
cipher available to both operations) and a fresh 12-byte nonce — returns the
original plaintext, for every plaintext string. -/
theorem C3_encrypt_decrypt_roundtrip (A : AeadCipher) (nonce : List Nat) (p : String)
    (hlen : nonce.length = 12) (hn : ∀ b ∈ nonce, b < 256) :
    decrypt (some A) (encrypt A nonce p) = .ok p := by
  have hmsg : ∀ b ∈ utf8enc p, b < 256 := utf8EncodeList_lt p.data
  have hsealed : ∀ b ∈ A.sealBytes nonce (utf8enc p), b < 256 :=
    A.seal_lt nonce (utf8enc p) hmsg
  have hdata : ∀ b ∈ nonce ++ A.sealBytes nonce (utf8enc p), b < 256 := by
    intro b hb
    rcases List.mem_append.mp hb with h | h
    · exact hn b h
    · exact hsealed b h
  have hb64 : b64decode (encrypt A nonce p)
      = some (nonce ++ A.sealBytes nonce (utf8enc p)) :=
    b64_roundtrip _ hdata
  have hlen2 : ¬ (nonce ++ A.sealBytes nonce (utf8enc p)).length < 12 := by
    simp [List.length_append, hlen]
  simp only [decrypt, hb64]
  rw [if_neg hlen2,
    show (nonce ++ A.sealBytes nonce (utf8enc p)).take 12 = nonce by
      rw [← hlen, List.take_left],
    show (nonce ++ A.sealBytes nonce (utf8enc p)).drop 12 = A.sealBytes nonce (utf8enc p) by
      rw [← hlen, List.drop_left],
    A.seal_open nonce (utf8enc p) hmsg]
  simp only [utf8_roundtrip]

/-- Witness for C3: the roundtrip evaluated with the concrete tag cipher, the
all-zero nonce and the plaintext `"hi"`. -/
theorem C3_encrypt_decrypt_roundtrip_witness :
    decrypt (some tagCipher) (encrypt tagCipher (List.replicate 12 0) "hi") = .ok "hi" :=
  C3_encrypt_decrypt_roundtrip tagCipher (List.replicate 12 0) "hi" (by decide) (by decide)

/-- C4: with the key available, `decrypt` validates base64 well-formedness,
then the 12-byte minimum length, then the AEAD tag, then UTF-8 well-formedness
of the plaintext; each failure is returned as its own `DecryptError`
constructor (never a panic — `decrypt` is a total function into `Except`), and
it returns `Ok` exactly when all four validations pass. -/
theorem C4_decrypt_validation :
    (∀ (A : AeadCipher) (s : String), b64decode s = none →
        decrypt (some A) s = .error .InvalidBase64)
    ∧ (∀ (A : AeadCipher) (s : String) (data : List Nat), b64decode s = some data →
        data.length < 12 → decrypt (some A) s = .error (.InvalidDataLength data.length))
    ∧ (∀ (A : AeadCipher) (s : String) (data : List Nat), b64decode s = some data →
        ¬ data.length < 12 → A.openBytes (data.take 12) (data.drop 12) = none →
        decrypt (some A) s = .error .Crypto)
    ∧ (∀ (A : AeadCipher) (s : String) (data m : List Nat), b64decode s = some data →
        ¬ data.length < 12 → A.openBytes (data.take 12) (data.drop 12) = some m →
        utf8dec m = none → decrypt (some A) s = .error .Utf8)
    ∧ (∀ (A : AeadCipher) (s p : String), decrypt (some A) s = .ok p ↔
        ∃ data m, b64decode s = some data ∧ ¬ data.length < 12
          ∧ A.openBytes (data.take 12) (data.drop 12) = some m ∧ utf8dec m = some p)
    ∧ ([DecryptError.InvalidBase64, DecryptError.Crypto, DecryptError.Utf8].Nodup
        ∧ ∀ n, DecryptError.InvalidDataLength n
            ∉ [DecryptError.InvalidBase64, DecryptError.Crypto, DecryptError.Utf8]) := by
  refine ⟨?_, ?_, ?_, ?_, ?_, by decide, ?_⟩
  · intro A s h
    simp only [decrypt, h]
  · intro A s data hdata hlen
    simp only [decrypt, hdata]
    rw [if_pos hlen]
  · intro A s data hdata hlen hopen
    simp only [decrypt, hdata]
    rw [if_neg hlen]
    simp only [hopen]
  · intro A s data m hdata hlen hopen hutf
    simp only [decrypt, hdata]
    rw [if_neg hlen]
    simp only [hopen, hutf]
  · intro A s p
    constructor
    · intro h
      cases hdata : b64decode s with
      | none =>
        simp only [decrypt, hdata] at h
        cases h
      | some data =>
        by_cases hlen : data.length < 12
        · simp only [decrypt, hdata] at h
          rw [if_pos hlen] at h
          cases h
        · cases hm : A.openBytes (data.take 12) (data.drop 12) with
          | none =>
            simp only [decrypt, hdata] at h
            rw [if_neg hlen] at h
            simp only [hm] at h
            cases h
          | some m =>
            cases hq : utf8dec m with
            | none =>
              simp only [decrypt, hdata] at h
              rw [if_neg hlen] at h
              simp only [hm, hq] at h
              cases h
            | some q =>
              simp only [decrypt, hdata] at h
              rw [if_neg hlen] at h
              simp only [hm, hq] at h
              cases h
              exact ⟨data, m, rfl, hlen, hm, hq⟩
    · rintro ⟨data, m, hdata, hlen, hm, hq⟩
      simp only [decrypt, hdata]
      rw [if_neg hlen]
      simp only [hm, hq]
  · intro n h
    simp at h

/-- Witness for C4: each classified failure and the success case exercised on
concrete blobs with the tag cipher (whose `openBytes` requires the leading tag
byte `7`). -/
theorem C4_decrypt_validation_witness :
    decrypt (some tagCipher) "!" = .error .InvalidBase64
    ∧ decrypt (some tagCipher) (b64encode [1, 2, 3]) = .error (.InvalidDataLength 3)
    ∧ decrypt (some tagCipher) (b64encode (List.replicate 12 0 ++ [5])) = .error .Crypto
    ∧ decrypt (some tagCipher) (b64encode (List.replicate 12 0 ++ [7, 255])) = .error .Utf8
    ∧ decrypt (some tagCipher) (b64encode (List.replicate 12 0 ++ [7, 104, 105]))
        = .ok "hi" := by
  refine ⟨?_, ?_, ?_, ?_, ?_⟩
  · exact C4_decrypt_validation.1 tagCipher "!" (by decide)
  · exact C4_decrypt_validation.2.1 tagCipher _ [1, 2, 3] (by decide) (by decide)
  · exact C4_decrypt_validation.2.2.1 tagCipher _ (List.replicate 12 0 ++ [5])
      (by decide) (by decide) (by decide)
  · exact C4_decrypt_validation.2.2.2.1 tagCipher _ (List.replicate 12 0 ++ [7, 255]) [255]
      (by decide) (by decide) (by decide) (by decide)
  · exact (C4_decrypt_validation.2.2.2.2.1 tagCipher _ "hi").mpr
      ⟨List.replicate 12 0 ++ [7, 104, 105], [104, 105],
        by decide, by decide, by decide, by decide⟩

end Cryptenv
